import Mathlib

/-!
Verification of the pwr-stateful-vida repository: a shallow embedding of the
incremental Merkle-tree store (`src/python/utils/merkle_tree.py`), the ledger
service layered over it (`src/python/database_service.py`), and the
peer-consensus driver (`src/python/main.py` / `src/python/handler.py`),
together with theorems settling the frozen claims about them.

Byte strings are modelled as `List Nat`; Keccak-256 (an external library
primitive in the source) is modelled as an abstract binary hash function `H`
on byte strings, threaded through every definition.  Errors (Python
exceptions) are modelled with `Except String`, carrying the source's message
strings.  Recursion along parent pointers is bounded by an explicit fuel
parameter; exhausting fuel yields an error the source can never produce, and
every theorem either supplies enough fuel or is conditional on a successful
(`Except.ok`) run.
-/

/-- Byte strings (Python `bytes`) as lists of naturals. -/
abbrev Bytes := List Nat

/-- ASCII bytes of a string literal, for the concrete scenario keys. -/
def strBytes (s : String) : Bytes := s.toList.map Char.toNat

/-- Association-list lookup mirroring Python `dict` lookup: first (unique)
entry with the given key. -/
def alookup {κ α : Type} [DecidableEq κ] : List (κ × α) → κ → Option α
  | [], _ => none
  | (k', v) :: rest, k => if k' = k then some v else alookup rest k

/-- Association-list insertion mirroring Python `dict` assignment: an update
in place keeps the entry's position, a fresh key is appended. -/
def aput {κ α : Type} [DecidableEq κ] : List (κ × α) → κ → α → List (κ × α)
  | [], k, v => [(k, v)]
  | (k', v') :: rest, k, v =>
      if k' = k then (k, v) :: rest else (k', v') :: aput rest k v

/-- Association-list deletion mirroring Python `del d[k]`. -/
def adel {κ α : Type} [DecidableEq κ] : List (κ × α) → κ → List (κ × α)
  | [], _ => []
  | (k', v') :: rest, k => if k' = k then rest else (k', v') :: adel rest k

/-- Python truthiness of an optional byte string: `None` and `b""` are falsy. -/
def tget : Option Bytes → Option Bytes
  | some v => if v = [] then none else some v
  | none => none

/-!
## Consensus driver

From `Main.check_root_hash_validity_and_save` and `Main.fetch_peer_root_hash`
in `src/python/main.py` (the `handler.py` copy differs only in guarding the
decrement with `peers_count > 0`, which never fires in a round with one
response per configured peer).  The HTTP layer itself is not translatable;
a peer's behaviour is modelled by the classification `fetch_peer_root_hash`
gives its response, i.e. the `(success, root)` pair it returns.
-/

/-- A peer's response to `GET /rootHash`, at the granularity
`fetch_peer_root_hash` distinguishes. -/
inductive PeerResponse where
  /-- HTTP 200 with a non-empty body parsing to these bytes. -/
  | valid (root : Bytes)
  /-- HTTP non-200: the source returns `(True, None)`. -/
  | aliveNull
  /-- Empty body, unparseable hex, timeout or connection error:
  the source returns `(False, None)`. -/
  | dead
deriving DecidableEq, Repr

/-- The `(success, root_hash)` pair `fetch_peer_root_hash` returns for each
kind of response (`src/python/main.py` lines 403-437). -/
def fetchClassify : PeerResponse → Bool × Option Bytes
  | .valid r => (true, some r)
  | .aliveNull => (true, none)
  | .dead => (false, none)

/-- Python truthiness of the fetched `peer_root` (`if success and peer_root:`). -/
def respTruthy : Option Bytes → Bool
  | some r => !r.isEmpty
  | none => false

/-- One iteration of the peer loop in `check_root_hash_validity_and_save`:
state is `(peers_count, quorum, nMatch)`.  A truthy fetched root is compared
with the local root; anything else decrements `peers_count` and recomputes
`quorum = (peers_count * 2) // 3 + 1`. -/
def consensusStep (localRoot : Bytes) (st : Nat × Nat × Nat)
    (resp : PeerResponse) : Nat × Nat × Nat :=
  let count := st.1
  let quorum := st.2.1
  let nMatch := st.2.2
  let fetched := fetchClassify resp
  if fetched.1 && respTruthy fetched.2 then
    if fetched.2 = some localRoot then (count, quorum, nMatch + 1)
    else (count, quorum, nMatch)
  else (count - 1, (count - 1) * 2 / 3 + 1, nMatch)

/-- Outcome of one consensus round. -/
inductive ConsensusOutcome where
  /-- `set_block_root_hash(block_number, local_root)` was called after
  consuming `callsUsed` peer responses. -/
  | committed (root : Bytes) (callsUsed : Nat)
  /-- The loop ended without quorum and `revert_unsaved_changes()` was called. -/
  | revertCalled
  /-- No local root hash: the method returns without comparing. -/
  | noLocalRoot
deriving DecidableEq, Repr

/-- The peer loop of `check_root_hash_validity_and_save`: after each response
the state is updated by `consensusStep` and `nMatch >= quorum` is checked. -/
def consensusLoop (localRoot : Bytes) :
    Nat × Nat × Nat → Nat → List PeerResponse → ConsensusOutcome
  | _, _, [] => .revertCalled
  | st, calls, resp :: rest =>
    let st' := consensusStep localRoot st resp
    if st'.2.1 ≤ st'.2.2 then .committed localRoot (calls + 1)
    else consensusLoop localRoot st' (calls + 1) rest

/-- `check_root_hash_validity_and_save`, with one response per configured
peer: `peers_count` starts at the number of peers and
`quorum = (peers_count * 2) // 3 + 1`. -/
def checkRootHashValidityAndSave :
    Option Bytes → List PeerResponse → ConsensusOutcome
  | none, _ => .noLocalRoot
  | some r, responses =>
      consensusLoop r (responses.length, responses.length * 2 / 3 + 1, 0) 0 responses

/-- C3 counterexample: with 2 active peers and quorum 2, an HTTP non-200
response (classified `(True, None)`) drops the active count to 1 and the
quorum to 1 — it does not leave them unchanged as the claim states. -/
theorem aliveNull_shrinks_quorum_cex :
    (consensusStep [1] (2, 2, 0) .aliveNull).1 ≠ 2 ∧
    (consensusStep [1] (2, 2, 0) .aliveNull).2.1 ≠ 2 := by
  decide

/-- C3 (amended): an HTTP non-200 response contributes no match, but — contrary
to the claim — it is treated like a dead peer: the active peer count is
decremented and the quorum recomputed as `(active - 1) * 2 / 3 + 1`. -/
theorem aliveNull_step_eq (localRoot : Bytes) (count quorum nMatch : Nat) :
    consensusStep localRoot (count, quorum, nMatch) .aliveNull
      = (count - 1, (count - 1) * 2 / 3 + 1, nMatch) := rfl

/-- All-agreeing runs: with `count` and `quorum` fixed and every response a
truthy match, the loop commits as soon as `nMatch` reaches `quorum`. -/
theorem consensusLoop_all_valid (r : Bytes) (hr : r ≠ [])
    (count quorum : Nat) :
    ∀ k nMatch calls, nMatch < quorum → quorum ≤ nMatch + k →
      consensusLoop r (count, quorum, nMatch) calls (List.replicate k (.valid r))
        = .committed r (calls + (quorum - nMatch)) := by
  intro k
  induction k with
  | zero => intro nMatch calls h1 h2; omega
  | succ n ih =>
      intro nMatch calls h1 h2
      have hstep : consensusStep r (count, quorum, nMatch) (.valid r)
          = (count, quorum, nMatch + 1) := by
        simp [consensusStep, fetchClassify, respTruthy, hr]
      rw [List.replicate_succ]
      simp only [consensusLoop, hstep]
      by_cases hq : quorum ≤ nMatch + 1
      · have hq1 : quorum = nMatch + 1 := by omega
        rw [if_pos hq, hq1]
        simp
      · have h1' : nMatch + 1 < quorum := by omega
        rw [if_neg hq, ih (nMatch + 1) (calls + 1) h1' (by omega)]
        have : calls + 1 + (quorum - (nMatch + 1)) = calls + (quorum - nMatch) := by
          omega
        rw [this]

/-- All-dead runs: nMatch stays 0 and the recomputed quorum is always at
least 1, so the loop never commits. -/
theorem consensusLoop_all_dead (r : Bytes) (count quorum calls : Nat) :
    ∀ k, consensusLoop r (count, quorum, 0) calls (List.replicate k .dead)
      = .revertCalled := by
  intro k
  induction k generalizing count quorum calls with
  | zero => rfl
  | succ n ih =>
      have hstep : consensusStep r (count, quorum, 0) .dead
          = (count - 1, (count - 1) * 2 / 3 + 1, 0) := rfl
      rw [List.replicate_succ]
      simp only [consensusLoop, hstep]
      have hne : ¬ ((count - 1) * 2 / 3 + 1 ≤ 0) := by omega
      rw [if_neg hne]
      exact ih (count - 1) _ (calls + 1)

/-- C4: with `n ≥ 1` peers all answering the local root, the round commits
after exactly `(2n)/3 + 1 ≤ n` peer calls; with every peer dead, the round
never commits and ends by calling `revert_unsaved_changes()`. -/
theorem quorum_progression (n : Nat) (r : Bytes) (hn : 1 ≤ n) (hr : r ≠ []) :
    (checkRootHashValidityAndSave (some r) (List.replicate n (.valid r))
        = .committed r (n * 2 / 3 + 1) ∧ n * 2 / 3 + 1 ≤ n) ∧
    checkRootHashValidityAndSave (some r) (List.replicate n .dead)
      = .revertCalled := by
  refine ⟨⟨?_, by omega⟩, ?_⟩
  · rw [checkRootHashValidityAndSave, List.length_replicate]
    rw [consensusLoop_all_valid r hr n (n * 2 / 3 + 1) n 0 0 (by omega) (by omega)]
    simp
  · rw [checkRootHashValidityAndSave, List.length_replicate]
    exact consensusLoop_all_dead r n (n * 2 / 3 + 1) 0 n

/-- Witness for `quorum_progression` at `n = 4` peers and root `[1]`. -/
theorem quorum_progression_witness :
    (checkRootHashValidityAndSave (some [1]) (List.replicate 4 (.valid [1]))
        = .committed [1] (4 * 2 / 3 + 1) ∧ 4 * 2 / 3 + 1 ≤ 4) ∧
    checkRootHashValidityAndSave (some [1]) (List.replicate 4 .dead)
      = .revertCalled :=
  quorum_progression 4 [1] (by decide) (by decide)

/-!
## Merkle tree store

Shallow embedding of `src/python/utils/merkle_tree.py`.  The abstract hash
`H` stands for `keccak_256_two_inputs`; `calculate_leaf_hash(key, data)` is
`H key data`.  Python dictionaries (node cache, hanging-node map, key-data
cache, and the three `FileDB` namespaces) become insertion-ordered
association lists with `alookup` / `aput` / `adel`, matching Python `dict`
iteration and update semantics.  Where the source mutates a shared `Node`
object that is also reachable from the cache, the translation re-reads the
cache so the aliased write is reproduced (see `cacheAliased`).
-/

/-- A tree node (`class Node`): own hash, optional child hashes, optional
parent hash, and the stale hash scheduled for deletion on next flush
(`node_hash_to_remove_from_db`). -/
structure MNode where
  hash : Bytes
  left : Option Bytes := none
  right : Option Bytes := none
  parent : Option Bytes := none
  rmFromDb : Option Bytes := none
deriving DecidableEq, Repr

/-- `Node.calculate_hash_static`: duplicate the present side when only one
child exists; error when both are absent. -/
def calculateHashStatic (H : Bytes → Bytes → Bytes) :
    Option Bytes → Option Bytes → Except String Bytes
  | none, none => .error "Cannot calculate hash with no children"
  | some l, none => .ok (H l l)
  | none, some r => .ok (H r r)
  | some l, some r => .ok (H l r)

/-- `Node.calculate_hash` on a node value. -/
def MNode.calcHash (H : Bytes → Bytes → Bytes) (n : MNode) : Except String Bytes :=
  calculateHashStatic H n.left n.right

/-- The `Node.__init__` emptiness check (`Node hash cannot be empty`). -/
def mkMNode (hash : Bytes) (left right parent : Option Bytes) :
    Except String MNode :=
  if hash = [] then .error "Node hash cannot be empty"
  else .ok { hash := hash, left := left, right := right, parent := parent }

/-- `Node.new_leaf`. -/
def newLeaf (hash : Bytes) : Except String MNode := mkMNode hash none none none

/-- `Node.new_internal`: auto-calculate the node hash from the children. -/
def newInternal (H : Bytes → Bytes → Bytes) (left right : Option Bytes) :
    Except String MNode :=
  match left, right with
  | none, none => .error "At least one of left or right hash must be non-null"
  | _, _ =>
      match calculateHashStatic H left right with
      | .error e => .error e
      | .ok h => mkMNode h left right none

/-- `Node.update_leaf`: replace whichever child equals the old hash. -/
def MNode.updateLeafHash (n : MNode) (oldHash newHash : Bytes) :
    Except String MNode :=
  if n.left = some oldHash then .ok { n with left := some newHash }
  else if n.right = some oldHash then .ok { n with right := some newHash }
  else .error "Old hash not found among this node's children"

/-- `Node.add_leaf`: fill the first vacant side. -/
def MNode.addChild (n : MNode) (leafHash : Bytes) : Except String MNode :=
  match n.left with
  | none => .ok { n with left := some leafHash }
  | some _ =>
      match n.right with
      | none => .ok { n with right := some leafHash }
      | some _ => .error "Node already has both left and right children"

/-- The `FileDB` backend: three namespaces.  `put_metadata` stores `None`
for a falsy value (so an empty byte string is indistinguishable from
absence on read, as in the source). -/
structure MerkleDB where
  metadata : List (String × Option Bytes) := []
  nodes : List (Bytes × MNode) := []
  keydata : List (Bytes × Bytes) := []
deriving DecidableEq, Repr

/-- `FileDB.put_metadata`. -/
def dbPutMetadata (db : MerkleDB) (k : String) (v : Option Bytes) : MerkleDB :=
  { db with metadata := aput db.metadata k (tget v) }

/-- `FileDB.get_metadata` (a stored falsy value reads as absent). -/
def dbGetMetadata (db : MerkleDB) (k : String) : Option Bytes :=
  match alookup db.metadata k with
  | some v => tget v
  | none => none

/-- The in-memory state of an open `MerkleTree`. -/
structure TreeState where
  db : MerkleDB := {}
  nodesCache : List (Bytes × MNode) := []
  hangingNodes : List (Nat × Bytes) := []
  keyDataCache : List (Bytes × Bytes) := []
  numLeaves : Nat := 0
  depth : Nat := 0
  rootHash : Option Bytes := none
  closed : Bool := false
  hasUnsavedChanges : Bool := false
deriving DecidableEq, Repr

/-- A freshly opened tree over an empty backend (all metadata absent). -/
def emptyTree : TreeState := {}

/-- `struct.pack('<i', n)` for `0 ≤ n < 2^31`. -/
def packI32 (n : Nat) : Bytes :=
  [n % 256, n / 256 % 256, n / 65536 % 256, n / 16777216 % 256]

/-- `struct.unpack('<i', b)[0]` for the 4-byte strings this program writes
(values below `2^31`, so the sign bit never fires). -/
def unpackI32 (b : Bytes) : Nat :=
  match b with
  | [a, b1, c, d] => a + 256 * b1 + 65536 * c + 16777216 * d
  | _ => 0

/-- `MerkleTree._get_node_by_hash`: cache first, then the nodes namespace,
caching a hit; a falsy hash is `None`.  Returns the possibly grown state. -/
def getNodeByHash (s : TreeState) (h : Bytes) : TreeState × Option MNode :=
  if h = [] then (s, none)
  else
    match alookup s.nodesCache h with
    | some n => (s, some n)
    | none =>
        match alookup s.db.nodes h with
        | some n => ({ s with nodesCache := aput s.nodesCache h n }, some n)
        | none => (s, none)

/-- `MerkleTree._update_node_in_cache`. -/
def updateNodeInCache (s : TreeState) (n : MNode) : TreeState :=
  { s with nodesCache := aput s.nodesCache n.hash n }

/-- The trailing `self._update_node_in_cache(node)` of `_add_leaf` /
`_add_node`: in Python `node` aliases the cache entry under `node.hash`
whenever one exists (propagation may already have rewritten its parent
pointer through that alias), so the write is a no-op then; only when the
key is absent does it insert the captured value. -/
def cacheAliased (s : TreeState) (n : MNode) : TreeState :=
  match alookup s.nodesCache n.hash with
  | some cur => { s with nodesCache := aput s.nodesCache n.hash cur }
  | none => updateNodeInCache s n

/-- Replace the first hanging-node entry whose hash equals `oldHash`
(the `for level, hash_value in list(...): ... break` loop of
`_update_node_hash`). -/
def hangingReplace : List (Nat × Bytes) → Bytes → Bytes → List (Nat × Bytes)
  | [], _, _ => []
  | (l, h) :: rest, oldHash, newHash =>
      if h = oldHash then (l, newHash) :: rest
      else (l, h) :: hangingReplace rest oldHash newHash

/-- Update the parent pointer of the child stored under hash `ch` (if any)
to `p`, as in the child-updating blocks of `_update_node_hash`. -/
def repointChild (s : TreeState) (ch : Option Bytes) (p : Bytes) : TreeState :=
  match ch with
  | none => s
  | some c =>
      match (getNodeByHash s c).2 with
      | some child => updateNodeInCache (getNodeByHash s c).1 { child with parent := some p }
      | none => (getNodeByHash s c).1

/-- `MerkleTree._update_node_hash`: re-key the node under its new hash,
record the stale hash, patch the hanging map, then propagate to the root
(fuel bounds the parent-chain recursion). -/
def updateNodeHash (H : Bytes → Bytes → Bytes) :
    Nat → TreeState → MNode → Bytes → Except String TreeState
  | 0, _, _, _ => .error "fuel exhausted"
  | fuel + 1, s, node0, newHash =>
    let node1 := if node0.rmFromDb = none
      then { node0 with rmFromDb := some node0.hash } else node0
    let oldHash := node1.hash
    let node2 := { node1 with hash := newHash }
    let s := { s with hangingNodes := hangingReplace s.hangingNodes oldHash newHash }
    let s := { s with nodesCache := aput (adel s.nodesCache oldHash) newHash node2 }
    if node2.parent = none then
      -- root: update the root hash and both children's parent pointers
      let s := { s with rootHash := some newHash }
      let s := repointChild s node2.left newHash
      let s := repointChild s node2.right newHash
      .ok s
    else if node2.left = none ∧ node2.right = none then
      -- leaf with a parent: patch the parent's child slot and recurse
      match tget node2.parent with
      | none => .ok s
      | some ph =>
          match (getNodeByHash s ph).2 with
          | none => .ok (getNodeByHash s ph).1
          | some parentNode =>
              match parentNode.updateLeafHash oldHash newHash with
              | .error e => .error e
              | .ok updated =>
                  match updated.calcHash H with
                  | .error e => .error e
                  | .ok nph => updateNodeHash H fuel (getNodeByHash s ph).1 updated nph
    else
      -- internal with a parent: repoint both children, then the parent
      let s := repointChild s node2.left newHash
      let s := repointChild s node2.right newHash
      match tget node2.parent with
      | none => .ok s
      | some ph =>
          match (getNodeByHash s ph).2 with
          | none => .ok (getNodeByHash s ph).1
          | some parentNode =>
              match parentNode.updateLeafHash oldHash newHash with
              | .error e => .error e
              | .ok updated =>
                  match updated.calcHash H with
                  | .error e => .error e
                  | .ok nph => updateNodeHash H fuel (getNodeByHash s ph).1 updated nph

/-- `MerkleTree._add_node`: hang the node at this level or pair it with the
node already hanging there. -/
def addNode (H : Bytes → Bytes → Bytes) :
    Nat → Nat → MNode → TreeState → Except String TreeState
  | 0, _, _, _ => .error "fuel exhausted"
  | fuel + 1, level, node, s =>
    let s := if level > s.depth then { s with depth := level } else s
    match tget (alookup s.hangingNodes level) with
    | some hangingHash =>
        match (getNodeByHash s hangingHash).2 with
        | none => .ok (cacheAliased (getNodeByHash s hangingHash).1 node)
        | some hangingNode =>
            let s1 := (getNodeByHash s hangingHash).1
            let s := { s1 with hangingNodes := adel s1.hangingNodes level }
            if hangingNode.parent = none then
              match newInternal H (some hangingHash) (some node.hash) with
              | .error e => .error e
              | .ok parent =>
                let s := updateNodeInCache s { hangingNode with parent := some parent.hash }
                let node' := { node with parent := some parent.hash }
                let s := updateNodeInCache s node'
                match addNode H fuel (level + 1) parent s with
                | .error e => .error e
                | .ok s => .ok (cacheAliased s node')
            else
              match (getNodeByHash s (hangingNode.parent.getD [])).2 with
              | none => .error "Parent node not found"
              | some parentNode =>
                  match parentNode.addChild node.hash with
                  | .error e => .error e
                  | .ok pNode =>
                    let node' := { node with parent := hangingNode.parent }
                    let s := updateNodeInCache (getNodeByHash s (hangingNode.parent.getD [])).1 node'
                    match pNode.calcHash H with
                    | .error e => .error e
                    | .ok nph =>
                        match updateNodeHash H fuel s pNode nph with
                        | .error e => .error e
                        | .ok s => .ok (cacheAliased s node')
    | none =>
        let s := { s with hangingNodes := aput s.hangingNodes level node.hash }
        if level ≥ s.depth then
          let s := { s with rootHash := some node.hash }
          .ok (cacheAliased s node)
        else
          match newInternal H (some node.hash) none with
          | .error e => .error e
          | .ok parent =>
            let node' := { node with parent := some parent.hash }
            let s := updateNodeInCache s node'
            match addNode H fuel (level + 1) parent s with
            | .error e => .error e
            | .ok s => .ok (cacheAliased s node')

/-- `MerkleTree._add_leaf`. -/
def addLeaf (H : Bytes → Bytes → Bytes) (fuel : Nat) (leafNode : MNode)
    (s : TreeState) : Except String TreeState :=
  if s.numLeaves = 0 then
    let s := { s with hangingNodes := aput s.hangingNodes 0 leafNode.hash,
                      rootHash := some leafNode.hash,
                      numLeaves := s.numLeaves + 1 }
    .ok (updateNodeInCache s leafNode)
  else
    match tget (alookup s.hangingNodes 0) with
    | some hangingHash =>
        match (getNodeByHash s hangingHash).2 with
        | none =>
            let s1 := (getNodeByHash s hangingHash).1
            .ok (cacheAliased { s1 with numLeaves := s1.numLeaves + 1 } leafNode)
        | some hangingLeaf =>
            let s1 := (getNodeByHash s hangingHash).1
            let s := { s1 with hangingNodes := adel s1.hangingNodes 0 }
            if hangingLeaf.parent = none then
              match newInternal H (some hangingHash) (some leafNode.hash) with
              | .error e => .error e
              | .ok parent =>
                let s := updateNodeInCache s { hangingLeaf with parent := some parent.hash }
                let leaf' := { leafNode with parent := some parent.hash }
                let s := updateNodeInCache s leaf'
                match addNode H fuel 1 parent s with
                | .error e => .error e
                | .ok s => .ok (cacheAliased { s with numLeaves := s.numLeaves + 1 } leaf')
            else
              match (getNodeByHash s (hangingLeaf.parent.getD [])).2 with
              | none => .error "Parent node not found"
              | some parentNode =>
                  match parentNode.addChild leafNode.hash with
                  | .error e => .error e
                  | .ok pNode =>
                    let leaf' := { leafNode with parent := hangingLeaf.parent }
                    let s := updateNodeInCache (getNodeByHash s (hangingLeaf.parent.getD [])).1 leaf'
                    match pNode.calcHash H with
                    | .error e => .error e
                    | .ok nph =>
                        match updateNodeHash H fuel s pNode nph with
                        | .error e => .error e
                        | .ok s =>
                            .ok (cacheAliased { s with numLeaves := s.numLeaves + 1 } leaf')
    | none =>
        let s := { s with hangingNodes := aput s.hangingNodes 0 leafNode.hash }
        match newInternal H (some leafNode.hash) none with
        | .error e => .error e
        | .ok parent =>
          let leaf' := { leafNode with parent := some parent.hash }
          let s := updateNodeInCache s leaf'
          match addNode H fuel 1 parent s with
          | .error e => .error e
          | .ok s => .ok (cacheAliased { s with numLeaves := s.numLeaves + 1 } leaf')

/-- `MerkleTree._update_leaf`. -/
def updateLeafOp (H : Bytes → Bytes → Bytes) (fuel : Nat)
    (oldHash newHash : Bytes) (s : TreeState) : Except String TreeState :=
  if oldHash = newHash then
    .error "Old and new leaf hashes cannot be the same"
  else
    match (getNodeByHash s oldHash).2 with
    | none => .error "Leaf not found"
    | some leaf => updateNodeHash H fuel (getNodeByHash s oldHash).1 leaf newHash

/-- `MerkleTree.get_data` without the closed check: dirty key-data cache
first, then the keydata namespace. -/
def getDataRaw (s : TreeState) (key : Bytes) : Option Bytes :=
  match alookup s.keyDataCache key with
  | some v => some v
  | none => alookup s.db.keydata key

/-- `MerkleTree.get_data`. -/
def getData (s : TreeState) (key : Bytes) : Except String (Option Bytes) :=
  if s.closed then .error "MerkleTree is closed"
  else .ok (getDataRaw s key)

/-- The `old_leaf_hash` computed by `add_or_update_data`: the leaf hash of
the truthy existing value, else `None`. -/
def oldLeafHashOf (H : Bytes → Bytes → Bytes) (s : TreeState) (key : Bytes) :
    Option Bytes :=
  match tget (getDataRaw s key) with
  | some existing => some (H key existing)
  | none => none

/-- `MerkleTree.add_or_update_data` (the public `put`). -/
def addOrUpdateData (H : Bytes → Bytes → Bytes) (fuel : Nat)
    (key data : Bytes) (s : TreeState) : Except String TreeState :=
  if s.closed then .error "MerkleTree is closed"
  else if key = [] then .error "Key cannot be empty"
  else if data = [] then .error "Data cannot be empty"
  else
    let oldLeafHash := oldLeafHashOf H s key
    let newLeafHash := H key data
    if (tget oldLeafHash).isSome ∧ oldLeafHash = some newLeafHash then .ok s
    else
      let s := { s with keyDataCache := aput s.keyDataCache key data,
                        hasUnsavedChanges := true }
      match oldLeafHash with
      | none =>
          match newLeaf newLeafHash with
          | .error e => .error e
          | .ok leaf => addLeaf H fuel leaf s
      | some o => updateLeafOp H fuel o newLeafHash s

/-- `MerkleTree.contains_key`: reads only the keydata namespace, never the
dirty cache. -/
def containsKey (s : TreeState) (key : Bytes) : Except String Bool :=
  if s.closed then .error "MerkleTree is closed"
  else if key = [] then .error "Key cannot be empty"
  else .ok (alookup s.db.keydata key).isSome

/-- `MerkleTree.get_root_hash` (a falsy stored root reads as `None`). -/
def getRootHash (s : TreeState) : Except String (Option Bytes) :=
  if s.closed then .error "MerkleTree is closed" else .ok (tget s.rootHash)

/-- `MerkleTree.get_num_leaves`. -/
def getNumLeaves (s : TreeState) : Except String Nat :=
  if s.closed then .error "MerkleTree is closed" else .ok s.numLeaves

/-- `MerkleTree.get_depth`. -/
def getDepth (s : TreeState) : Except String Nat :=
  if s.closed then .error "MerkleTree is closed" else .ok s.depth

/-- `MerkleTree.flush_to_disk`.  Note the order of the two guards: a tree
with no unsaved changes returns silently before the closed check. -/
def flushToDisk (s : TreeState) : Except String TreeState :=
  if s.hasUnsavedChanges = false then .ok s
  else if s.closed then .error "MerkleTree is closed"
  else
    let db := dbPutMetadata s.db "rootHash" s.rootHash
    let db := dbPutMetadata db "numLeaves" (some (packI32 s.numLeaves))
    let db := dbPutMetadata db "depth" (some (packI32 s.depth))
    let db := s.hangingNodes.foldl
      (fun db lh => dbPutMetadata db ("hangingNode" ++ toString lh.1) (some lh.2)) db
    let db := s.nodesCache.foldl
      (fun db kn =>
        let db := { db with nodes := aput db.nodes kn.2.hash kn.2 }
        match kn.2.rmFromDb with
        | some stale => { db with nodes := adel db.nodes stale }
        | none => db) db
    let db := s.keyDataCache.foldl
      (fun db kv => { db with keydata := aput db.keydata kv.1 kv.2 }) db
    .ok { s with db := db, nodesCache := [], keyDataCache := [],
                 hasUnsavedChanges := false }

/-- `MerkleTree._load_metadata`: read root, leaf count, depth, and the
hanging nodes of levels `0 .. depth` from the metadata namespace. -/
def loadMetadata (s : TreeState) : TreeState :=
  let root := dbGetMetadata s.db "rootHash"
  let nl := match dbGetMetadata s.db "numLeaves" with
    | some b => unpackI32 b
    | none => 0
  let d := match dbGetMetadata s.db "depth" with
    | some b => unpackI32 b
    | none => 0
  let hang := (List.range (d + 1)).foldl
    (fun acc i =>
      match dbGetMetadata s.db ("hangingNode" ++ toString i) with
      | some h => aput acc i h
      | none => acc) []
  { s with rootHash := root, numLeaves := nl, depth := d, hangingNodes := hang }

/-- `MerkleTree.revert_unsaved_changes`.  As in `flush_to_disk`, the
no-changes early return precedes the closed check. -/
def revertUnsavedChanges (s : TreeState) : Except String TreeState :=
  if s.hasUnsavedChanges = false then .ok s
  else if s.closed then .error "MerkleTree is closed"
  else
    .ok (loadMetadata { s with nodesCache := [], hangingNodes := [],
                               keyDataCache := [], hasUnsavedChanges := false })

/-- `MerkleTree.close`: flush, then mark closed (idempotent). -/
def closeTree (s : TreeState) : Except String TreeState :=
  if s.closed then .ok s
  else do
    let s ← flushToDisk s
    .ok { s with closed := true }

/-!
## Frame lemmas

The tree-shape subroutines (`_add_leaf`, `_add_node`, `_update_node_hash`)
touch only the node cache, hanging map, root hash, depth and leaf count:
they never write the backend, the key-data cache, the closed flag or the
dirty flag.  `SameOuter` packages those four untouched components.
-/

/-- The components of the state that hash propagation never touches. -/
def SameOuter (s t : TreeState) : Prop :=
  t.db = s.db ∧ t.keyDataCache = s.keyDataCache ∧ t.closed = s.closed ∧
    t.hasUnsavedChanges = s.hasUnsavedChanges

theorem sameOuter_refl (s : TreeState) : SameOuter s s := ⟨rfl, rfl, rfl, rfl⟩

theorem SameOuter.trans {a b c : TreeState}
    (h1 : SameOuter a b) (h2 : SameOuter b c) : SameOuter a c := by
  obtain ⟨x1, x2, x3, x4⟩ := h1
  obtain ⟨y1, y2, y3, y4⟩ := h2
  exact ⟨y1.trans x1, y2.trans x2, y3.trans x3, y4.trans x4⟩

theorem getNodeByHash_outer (s : TreeState) (h : Bytes) :
    SameOuter s (getNodeByHash s h).1 := by
  unfold getNodeByHash
  repeat' split
  all_goals exact ⟨rfl, rfl, rfl, rfl⟩

theorem updateNodeInCache_outer (s : TreeState) (n : MNode) :
    SameOuter s (updateNodeInCache s n) := ⟨rfl, rfl, rfl, rfl⟩

theorem cacheAliased_outer (s : TreeState) (n : MNode) :
    SameOuter s (cacheAliased s n) := by
  unfold cacheAliased
  split
  · exact ⟨rfl, rfl, rfl, rfl⟩
  · exact ⟨rfl, rfl, rfl, rfl⟩

theorem repointChild_outer (s : TreeState) (ch : Option Bytes) (p : Bytes) :
    SameOuter s (repointChild s ch p) := by
  cases ch with
  | none => exact sameOuter_refl s
  | some c =>
      unfold repointChild
      rcases hg : getNodeByHash s c with ⟨s', child⟩
      have h0 := getNodeByHash_outer s c
      rw [hg] at h0
      cases child with
      | none => simpa [hg] using h0
      | some n =>
          simp only [hg]
          exact h0.trans (updateNodeInCache_outer _ _)

theorem getNodeByHash_pair_outer {s : TreeState} {h : Bytes} {s1 : TreeState}
    {o : Option MNode} (heq : getNodeByHash s h = (s1, o)) : SameOuter s s1 := by
  have h0 := getNodeByHash_outer s h
  rw [heq] at h0
  exact h0

@[simp] theorem updateNodeInCache_db (s : TreeState) (n : MNode) :
    (updateNodeInCache s n).db = s.db := rfl

@[simp] theorem updateNodeInCache_kdc (s : TreeState) (n : MNode) :
    (updateNodeInCache s n).keyDataCache = s.keyDataCache := rfl

@[simp] theorem updateNodeInCache_closed (s : TreeState) (n : MNode) :
    (updateNodeInCache s n).closed = s.closed := rfl

@[simp] theorem updateNodeInCache_unsaved (s : TreeState) (n : MNode) :
    (updateNodeInCache s n).hasUnsavedChanges = s.hasUnsavedChanges := rfl

@[simp] theorem gnbh_fst_db (s : TreeState) (h : Bytes) :
    ((getNodeByHash s h).1).db = s.db := (getNodeByHash_outer s h).1

@[simp] theorem gnbh_fst_kdc (s : TreeState) (h : Bytes) :
    ((getNodeByHash s h).1).keyDataCache = s.keyDataCache :=
  (getNodeByHash_outer s h).2.1

@[simp] theorem gnbh_fst_closed (s : TreeState) (h : Bytes) :
    ((getNodeByHash s h).1).closed = s.closed := (getNodeByHash_outer s h).2.2.1

@[simp] theorem gnbh_fst_unsaved (s : TreeState) (h : Bytes) :
    ((getNodeByHash s h).1).hasUnsavedChanges = s.hasUnsavedChanges :=
  (getNodeByHash_outer s h).2.2.2

@[simp] theorem repointChild_db (s : TreeState) (ch : Option Bytes) (p : Bytes) :
    (repointChild s ch p).db = s.db := (repointChild_outer s ch p).1

@[simp] theorem repointChild_kdc (s : TreeState) (ch : Option Bytes) (p : Bytes) :
    (repointChild s ch p).keyDataCache = s.keyDataCache :=
  (repointChild_outer s ch p).2.1

@[simp] theorem repointChild_closed (s : TreeState) (ch : Option Bytes) (p : Bytes) :
    (repointChild s ch p).closed = s.closed := (repointChild_outer s ch p).2.2.1

@[simp] theorem repointChild_unsaved (s : TreeState) (ch : Option Bytes) (p : Bytes) :
    (repointChild s ch p).hasUnsavedChanges = s.hasUnsavedChanges :=
  (repointChild_outer s ch p).2.2.2

@[simp] theorem cacheAliased_db (s : TreeState) (n : MNode) :
    (cacheAliased s n).db = s.db := (cacheAliased_outer s n).1

@[simp] theorem cacheAliased_kdc (s : TreeState) (n : MNode) :
    (cacheAliased s n).keyDataCache = s.keyDataCache := (cacheAliased_outer s n).2.1

@[simp] theorem cacheAliased_closed (s : TreeState) (n : MNode) :
    (cacheAliased s n).closed = s.closed := (cacheAliased_outer s n).2.2.1

@[simp] theorem cacheAliased_unsaved (s : TreeState) (n : MNode) :
    (cacheAliased s n).hasUnsavedChanges = s.hasUnsavedChanges :=
  (cacheAliased_outer s n).2.2.2

theorem updateNodeHash_outer (H : Bytes → Bytes → Bytes) :
    ∀ fuel s n nh s', updateNodeHash H fuel s n nh = .ok s' → SameOuter s s' := by
  intro fuel
  induction fuel with
  | zero => intro s n nh s' h; simp [updateNodeHash] at h
  | succ fuel ih =>
      intro s n nh s' h
      simp only [updateNodeHash] at h
      repeat' split at h
      all_goals
        first
        | exact Except.noConfusion h
        | (injection h with h; subst h; simp [SameOuter])
        | exact SameOuter.trans (by simp [SameOuter]) (ih _ _ _ _ h)

theorem addNode_outer (H : Bytes → Bytes → Bytes) :
    ∀ fuel level node s s', addNode H fuel level node s = .ok s' → SameOuter s s' := by
  intro fuel
  induction fuel with
  | zero => intro level node s s' h; simp [addNode] at h
  | succ fuel ih =>
      intro level node s s' h
      simp only [addNode] at h
      repeat' split at h
      all_goals
        first
        | exact Except.noConfusion h
        | (injection h with h; subst h;
           simp [SameOuter] <;>
             first
             | (obtain ⟨e1, e2, e3, e4⟩ := ih _ _ _ _ (by assumption)
                exact ⟨e1.trans (by first | (simp; done) | (split <;> simp)), e2.trans (by first | (simp; done) | (split <;> simp)),
                  e3.trans (by first | (simp; done) | (split <;> simp)), e4.trans (by first | (simp; done) | (split <;> simp))⟩)
             | (obtain ⟨e1, e2, e3, e4⟩ := updateNodeHash_outer H _ _ _ _ _ (by assumption)
                exact ⟨e1.trans (by first | (simp; done) | (split <;> simp)), e2.trans (by first | (simp; done) | (split <;> simp)),
                  e3.trans (by first | (simp; done) | (split <;> simp)), e4.trans (by first | (simp; done) | (split <;> simp))⟩))

theorem addLeaf_outer (H : Bytes → Bytes → Bytes) (fuel : Nat) (leafNode : MNode)
    (s s' : TreeState) (h : addLeaf H fuel leafNode s = .ok s') : SameOuter s s' := by
  simp only [addLeaf] at h
  repeat' split at h
  all_goals
    first
    | exact Except.noConfusion h
    | (injection h with h; subst h;
       simp [SameOuter] <;>
         first
         | (obtain ⟨e1, e2, e3, e4⟩ := addNode_outer H _ _ _ _ _ (by assumption)
            exact ⟨e1.trans (by simp), e2.trans (by simp), e3.trans (by simp),
              e4.trans (by simp)⟩)
         | (obtain ⟨e1, e2, e3, e4⟩ := updateNodeHash_outer H _ _ _ _ _ (by assumption)
            exact ⟨e1.trans (by simp), e2.trans (by simp), e3.trans (by simp),
              e4.trans (by simp)⟩))

theorem updateLeafOp_outer (H : Bytes → Bytes → Bytes) (fuel : Nat)
    (oldHash newHash : Bytes) (s s' : TreeState)
    (h : updateLeafOp H fuel oldHash newHash s = .ok s') : SameOuter s s' := by
  simp only [updateLeafOp] at h
  repeat' split at h
  all_goals
    first
    | exact Except.noConfusion h
    | exact SameOuter.trans (by simp [SameOuter]) (updateNodeHash_outer H _ _ _ _ _ h)

/-!
## Association-list and flush lemmas
-/

theorem alookup_aput_self {κ α : Type} [DecidableEq κ] (l : List (κ × α))
    (k : κ) (v : α) : alookup (aput l k v) k = some v := by
  induction l with
  | nil => simp [aput, alookup]
  | cons hd tl ih =>
      obtain ⟨k', v'⟩ := hd
      by_cases hk : k' = k
      · simp [aput, alookup, hk]
      · simp [aput, alookup, hk, ih]

theorem alookup_aput_ne {κ α : Type} [DecidableEq κ] (l : List (κ × α))
    (k' k : κ) (v : α) (h : k' ≠ k) : alookup (aput l k' v) k = alookup l k := by
  induction l with
  | nil => simp [aput, alookup, h]
  | cons hd tl ih =>
      obtain ⟨k1, v1⟩ := hd
      by_cases hk : k1 = k'
      · subst hk
        simp [aput, alookup, h]
      · simp [aput, alookup, hk, ih]

theorem isSome_alookup_foldl_aput {κ α : Type} [DecidableEq κ] (k : κ) :
    ∀ (l : List (κ × α)) (d0 : List (κ × α)),
      ((alookup l k).isSome ∨ (alookup d0 k).isSome) →
      (alookup (l.foldl (fun d kv => aput d kv.1 kv.2) d0) k).isSome := by
  intro l
  induction l with
  | nil =>
      intro d0 h
      rcases h with h | h
      · simp [alookup] at h
      · simpa using h
  | cons hd tl ih =>
      intro d0 h
      obtain ⟨k1, v1⟩ := hd
      simp only [List.foldl_cons]
      by_cases hk : k1 = k
      · subst hk
        exact ih _ (Or.inr (by simp [alookup_aput_self]))
      · apply ih
        rcases h with h | h
        · simp only [alookup, if_neg hk] at h
          exact Or.inl h
        · exact Or.inr (by simpa [alookup_aput_ne _ _ _ _ hk] using h)

/-- `getDataRaw` misses only when both the cache and the namespace miss. -/
theorem getDataRaw_none {s : TreeState} {key : Bytes}
    (h : getDataRaw s key = none) :
    alookup s.keyDataCache key = none ∧ alookup s.db.keydata key = none := by
  unfold getDataRaw at h
  rcases hc : alookup s.keyDataCache key with _ | v
  · rw [hc] at h
    exact ⟨rfl, h⟩
  · rw [hc] at h
    exact absurd h (by simp)

/-- What a successful `add_or_update_data` did: either the no-op early
return fired (unchanged leaf hash), or the key-data cache gained the pair
and the dirty flag was set, while the backend and closed flag are
untouched. -/
theorem addOrUpdateData_cases (H : Bytes → Bytes → Bytes) (fuel : Nat)
    (key data : Bytes) (s s' : TreeState)
    (h : addOrUpdateData H fuel key data s = .ok s') :
    s.closed = false ∧ key ≠ [] ∧ data ≠ [] ∧
      ((s' = s ∧ (tget (oldLeafHashOf H s key)).isSome ∧
          oldLeafHashOf H s key = some (H key data)) ∨
        (s'.keyDataCache = aput s.keyDataCache key data ∧ s'.db = s.db ∧
          s'.closed = s.closed ∧ s'.hasUnsavedChanges = true)) := by
  simp only [addOrUpdateData] at h
  split at h
  · exact Except.noConfusion h
  · split at h
    · exact Except.noConfusion h
    · split at h
      · exact Except.noConfusion h
      · refine ⟨by simp_all, by assumption, by assumption, ?_⟩
        split at h
        · rename_i hcond
          injection h with h
          exact Or.inl ⟨h.symm, hcond.1, hcond.2⟩
        · refine Or.inr ?_
          split at h
          · split at h
            · exact Except.noConfusion h
            · have hout := addLeaf_outer H fuel _ _ _ h
              obtain ⟨e1, e2, e3, e4⟩ := hout
              exact ⟨e2, e1, e3, e4⟩
          · have hout := updateLeafOp_outer H fuel _ _ _ _ h
            obtain ⟨e1, e2, e3, e4⟩ := hout
            exact ⟨e2, e1, e3, e4⟩

/-- A successful flush leaves the dirty flag clear. -/
theorem flush_unsaved_false {s fs : TreeState} (h : flushToDisk s = .ok fs) :
    fs.hasUnsavedChanges = false := by
  unfold flushToDisk at h
  split at h
  · injection h with h
    subst h
    assumption
  · split at h
    · exact Except.noConfusion h
    · injection h with h
      subst h
      rfl

theorem foldl_keydata_eq {α : Type} (F : MerkleDB → α → MerkleDB)
    (hF : ∀ db a, (F db a).keydata = db.keydata) :
    ∀ (l : List α) (db : MerkleDB), (l.foldl F db).keydata = db.keydata := by
  intro l
  induction l with
  | nil => intro db; rfl
  | cons hd tl ih => intro db; rw [List.foldl_cons, ih, hF]

theorem foldl_kd_puts :
    ∀ (l : List (Bytes × Bytes)) (db : MerkleDB),
      (l.foldl (fun db kv => { db with keydata := aput db.keydata kv.1 kv.2 }) db).keydata
        = l.foldl (fun d kv => aput d kv.1 kv.2) db.keydata := by
  intro l
  induction l with
  | nil => intro db; rfl
  | cons hd tl ih => intro db; rw [List.foldl_cons, List.foldl_cons, ih]

/-- A flush that actually ran: the closed flag is kept and the keydata
namespace is the old one overlaid with the dirty key-data cache. -/
theorem flush_keydata {s s'' : TreeState} (h : flushToDisk s = .ok s'')
    (hd : s.hasUnsavedChanges = true) :
    s''.closed = s.closed ∧
      s''.db.keydata
        = s.keyDataCache.foldl (fun d kv => aput d kv.1 kv.2) s.db.keydata := by
  unfold flushToDisk at h
  split at h
  · simp_all
  · split at h
    · exact Except.noConfusion h
    · injection h with h
      subst h
      refine ⟨rfl, ?_⟩
      rw [foldl_kd_puts]
      congr 1
      rw [foldl_keydata_eq _ (by intro db a; split <;> rfl)]
      rw [foldl_keydata_eq _ (by intro db a; rfl)]
      rfl

/-- Concrete hash used to witness the abstract theorems: an injective
pairing of byte strings (256 is not a byte value). -/
def cH : Bytes → Bytes → Bytes := fun a b => a ++ 256 :: b

/-- C8: `contains` consults only the durable keydata namespace.  For a key
missing from both the cache and the namespace, a successful put makes
`get` return the value while `contains` still answers false; after a
successful flush `contains` answers true. -/
theorem contains_bypasses_cache (H : Bytes → Bytes → Bytes) (fuel : Nat)
    (key data : Bytes) (s : TreeState)
    (hfresh : getDataRaw s key = none) :
    match addOrUpdateData H fuel key data s with
    | .error _ => True
    | .ok s' =>
        getData s' key = .ok (some data) ∧ containsKey s' key = .ok false ∧
          match flushToDisk s' with
          | .error _ => True
          | .ok s'' => containsKey s'' key = .ok true := by
  rcases hp : addOrUpdateData H fuel key data s with e | s'
  · trivial
  · obtain ⟨hcl, hk, hd, hcase⟩ := addOrUpdateData_cases H fuel key data s s' hp
    rcases hcase with ⟨_, hsome, _⟩ | ⟨hkdc, hdb, hclosed, hunsaved⟩
    · rw [oldLeafHashOf, hfresh] at hsome
      simp [tget] at hsome
    · refine ⟨?_, ?_, ?_⟩
      · simp [getData, hclosed, hcl, getDataRaw, hkdc, alookup_aput_self]
      · simp [containsKey, hclosed, hcl, hk, hdb, (getDataRaw_none hfresh).2]
      · rcases hf : flushToDisk s' with e | s''
        · trivial
        · obtain ⟨hc2, hkd2⟩ := flush_keydata hf hunsaved
          have hsome2 : (alookup s''.db.keydata key).isSome := by
            rw [hkd2]
            refine isSome_alookup_foldl_aput key _ _ (Or.inl ?_)
            rw [hkdc, alookup_aput_self]
            rfl
          simp [containsKey, hc2, hclosed, hcl, hk, hsome2]

/-- Witness for `contains_bypasses_cache` on a fresh tree with `cH`. -/
theorem contains_bypasses_cache_witness :
    match addOrUpdateData cH 5 [1] [2] emptyTree with
    | .error _ => True
    | .ok s' =>
        getData s' [1] = .ok (some [2]) ∧ containsKey s' [1] = .ok false ∧
          match flushToDisk s' with
          | .error _ => True
          | .ok s'' => containsKey s'' [1] = .ok true :=
  contains_bypasses_cache cH 5 [1] [2] emptyTree (by decide)

/-- C9: when the recomputed leaf hash equals the prior leaf hash of a
truthy stored value, `add_or_update_data` returns before touching any
state: the result is the input state, bit for bit. -/
theorem noop_put (H : Bytes → Bytes → Bytes) (fuel : Nat)
    (key data existing : Bytes) (s : TreeState)
    (hcl : s.closed = false) (hk : key ≠ []) (hd : data ≠ [])
    (hex : getDataRaw s key = some existing) (hne : existing ≠ [])
    (hhne : H key existing ≠ []) (hh : H key existing = H key data) :
    addOrUpdateData H fuel key data s = .ok s := by
  have hhne2 : H key data ≠ [] := hh ▸ hhne
  simp [addOrUpdateData, hcl, hk, hd, oldLeafHashOf, hex, hne, tget, hhne, hhne2, hh]

/-- Witness for `noop_put`: a store whose cache binds `[1] ↦ [2]` and a put
of the same value. -/
theorem noop_put_witness :
    addOrUpdateData cH 5 [1] [2]
      { emptyTree with keyDataCache := [([1], [2])] }
      = .ok { emptyTree with keyDataCache := [([1], [2])] } :=
  noop_put cH 5 [1] [2] [2] _ (by decide) (by decide) (by decide) (by decide)
    (by decide) (by decide) (by decide)

/-!
## Closed-store behaviour (C6)

`close` flushes and marks the tree closed.  Every getter and `put` then
raises `MerkleTree is closed`, but `flush_to_disk` and
`revert_unsaved_changes` test `has_unsaved_changes` *before* the closed
check, and a closed tree never has unsaved changes, so both return silently
instead of raising.
-/

/-- C6 counterexample: flushing right after closing a fresh tree succeeds
silently — it does not fail with the Closed error as the claim states. -/
theorem closed_flush_cex :
    (closeTree emptyTree).bind flushToDisk
      = .ok { emptyTree with closed := true } := by
  rfl

/-- C6 (amended): after `close`, the getters, `get`, `put` and `contains`
all fail with the Closed error, while `flush_to_disk` and
`revert_unsaved_changes` return silently without touching the state. -/
theorem closed_ops (H : Bytes → Bytes → Bytes) (fuel : Nat)
    (key data : Bytes) (s t : TreeState)
    (hs : s.closed = false) (hc : closeTree s = .ok t) :
    getRootHash t = .error "MerkleTree is closed" ∧
    getNumLeaves t = .error "MerkleTree is closed" ∧
    getDepth t = .error "MerkleTree is closed" ∧
    getData t key = .error "MerkleTree is closed" ∧
    addOrUpdateData H fuel key data t = .error "MerkleTree is closed" ∧
    containsKey t key = .error "MerkleTree is closed" ∧
    flushToDisk t = .ok t ∧
    revertUnsavedChanges t = .ok t := by
  have hts : t.closed = true ∧ t.hasUnsavedChanges = false := by
    unfold closeTree at hc
    rw [if_neg (by simp [hs])] at hc
    rcases hf : flushToDisk s with e | fs
    · rw [hf] at hc
      exact Except.noConfusion hc
    · rw [hf] at hc
      have hc2 : Except.ok { fs with closed := true } = Except.ok t := hc
      injection hc2 with hc2
      subst hc2
      have hu := flush_unsaved_false hf
      exact ⟨rfl, hu⟩
  obtain ⟨ht1, ht2⟩ := hts
  refine ⟨?_, ?_, ?_, ?_, ?_, ?_, ?_, ?_⟩
  · simp [getRootHash, ht1]
  · simp [getNumLeaves, ht1]
  · simp [getDepth, ht1]
  · simp [getData, ht1]
  · simp [addOrUpdateData, ht1]
  · simp [containsKey, ht1]
  · simp [flushToDisk, ht2]
  · simp [revertUnsavedChanges, ht2]

/-- Witness for `closed_ops` on a freshly opened tree. -/
theorem closed_ops_witness :
    getRootHash { emptyTree with closed := true } = .error "MerkleTree is closed" ∧
    getNumLeaves { emptyTree with closed := true } = .error "MerkleTree is closed" ∧
    getDepth { emptyTree with closed := true } = .error "MerkleTree is closed" ∧
    getData { emptyTree with closed := true } [1] = .error "MerkleTree is closed" ∧
    addOrUpdateData cH 5 [1] [2] { emptyTree with closed := true }
      = .error "MerkleTree is closed" ∧
    containsKey { emptyTree with closed := true } [1]
      = .error "MerkleTree is closed" ∧
    flushToDisk { emptyTree with closed := true }
      = .ok { emptyTree with closed := true } ∧
    revertUnsavedChanges { emptyTree with closed := true }
      = .ok { emptyTree with closed := true } :=
  closed_ops cH 5 [1] [2] emptyTree { emptyTree with closed := true }
    (by decide) (by rfl)

/-!
## Ledger service

From `src/python/database_service.py`.  Balances are arbitrary-precision
integers; `set_balance` encodes minimally in big-endian
(`to_bytes((bit_length + 7) // 8, 'big')`, with `0` stored as the single
byte `0x00`) and `get_balance` decodes with `int.from_bytes(..., 'big')`,
returning 0 for an absent or empty value.
-/

/-- `int.from_bytes(data, 'big')`. -/
def bytesToNatBE (b : Bytes) : Nat := b.foldl (fun acc d => acc * 256 + d) 0

/-- Minimal big-endian digits of `n` (empty for 0); structural fuel makes
the definition kernel-reducible, and `fuel = n` always suffices. -/
def beDigitsAux : Nat → Nat → Bytes
  | 0, _ => []
  | fuel + 1, n => if n = 0 then [] else beDigitsAux fuel (n / 256) ++ [n % 256]

/-- The byte encoding `set_balance` writes: minimal big-endian, with `0`
encoded as `[0x00]`. -/
def intToBytesBE (n : Nat) : Bytes := if n = 0 then [0] else beDigitsAux n n

theorem bytesToNatBE_append_digit (xs : Bytes) (d : Nat) :
    bytesToNatBE (xs ++ [d]) = bytesToNatBE xs * 256 + d := by
  simp [bytesToNatBE, List.foldl_append]

theorem beAux_correct : ∀ fuel n, n ≤ fuel → bytesToNatBE (beDigitsAux fuel n) = n := by
  intro fuel
  induction fuel with
  | zero =>
      intro n h
      have : n = 0 := by omega
      simp [beDigitsAux, bytesToNatBE, this]
  | succ f ih =>
      intro n h
      by_cases h0 : n = 0
      · simp [beDigitsAux, h0, bytesToNatBE]
      · rw [beDigitsAux, if_neg h0, bytesToNatBE_append_digit]
        have hlt : n / 256 < n := Nat.div_lt_self (by omega) (by omega)
        rw [ih (n / 256) (by omega)]
        omega

theorem decode_encode (n : Nat) : bytesToNatBE (intToBytesBE n) = n := by
  unfold intToBytesBE
  split
  · simp_all [bytesToNatBE]
  · exact beAux_correct n n le_rfl

theorem encode_ne_nil (n : Nat) : intToBytesBE n ≠ [] := by
  unfold intToBytesBE
  split
  · simp
  · rename_i h0
    match n, h0 with
    | m + 1, _ => simp [beDigitsAux]

theorem tget_eq_some {o : Option Bytes} {e : Bytes} (h : tget o = some e) :
    o = some e ∧ e ≠ [] := by
  cases o with
  | none => simp [tget] at h
  | some v =>
      simp only [tget] at h
      split at h
      · exact Option.noConfusion h
      · injection h with h
        subst h
        exact ⟨rfl, by assumption⟩

/-- `get_balance`: 0 when absent or empty, else the big-endian value. -/
def getBalance (s : TreeState) (addr : Bytes) : Except String Int :=
  match getData s addr with
  | .error e => .error e
  | .ok none => .ok 0
  | .ok (some d) => if d = [] then .ok 0 else .ok (bytesToNatBE d : Int)

/-- `set_balance`: reject negatives, then store the minimal big-endian
encoding through `add_or_update_data`. -/
def setBalance (H : Bytes → Bytes → Bytes) (fuel : Nat) (s : TreeState)
    (addr : Bytes) (bal : Int) : Except String TreeState :=
  if bal < 0 then .error "Balance must be non-negative"
  else addOrUpdateData H fuel addr (intToBytesBE bal.toNat) s

/-- `transfer`: read the sender balance, return `False` on insufficient
funds, else debit the sender, read the receiver balance (through the dirty
cache), credit it, and return `True`. -/
def transferOp (H : Bytes → Bytes → Bytes) (fuel : Nat) (s : TreeState)
    (sender receiver : Bytes) (amount : Int) :
    Except String (Bool × TreeState) :=
  match getBalance s sender with
  | .error e => .error e
  | .ok sb =>
      if sb < amount then .ok (false, s)
      else
        match setBalance H fuel s sender (sb - amount) with
        | .error e => .error e
        | .ok s1 =>
            match getBalance s1 receiver with
            | .error e => .error e
            | .ok rb =>
                match setBalance H fuel s1 receiver (rb + amount) with
                | .error e => .error e
                | .ok s2 => .ok (true, s2)

/-- After a successful `set_balance`, `get_balance` reads back exactly the
written balance (`hinj` states collision-freedom of the hash on a fixed
key, the working assumption for Keccak-256). -/
theorem setBalance_get (H : Bytes → Bytes → Bytes)
    (hinj : ∀ k a b, H k a = H k b → a = b) (fuel : Nat) (s : TreeState)
    (addr : Bytes) (bal : Int) (s' : TreeState)
    (h : setBalance H fuel s addr bal = .ok s') :
    getBalance s' addr = .ok bal := by
  unfold setBalance at h
  split at h
  · exact Except.noConfusion h
  · rename_i hneg
    obtain ⟨hcl, hk, hd, hcase⟩ := addOrUpdateData_cases H fuel addr _ s s' h
    rcases hcase with ⟨hss, hsome, hold⟩ | ⟨hkdc, hdb, hclosed, hunsaved⟩
    · rw [hss]
      unfold oldLeafHashOf at hold
      rcases he : tget (getDataRaw s addr) with _ | e
      · rw [he] at hold
        exact Option.noConfusion hold
      · rw [he] at hold
        simp only [] at hold
        injection hold with hold
        have hee := hinj addr e (intToBytesBE bal.toNat) hold
        subst hee
        obtain ⟨hraw, hne⟩ := tget_eq_some he
        simp [getBalance, getData, hcl, hraw, hne, decode_encode]
        omega
    · have hget : getDataRaw s' addr = some (intToBytesBE bal.toNat) := by
        unfold getDataRaw
        rw [hkdc, alookup_aput_self]
      simp [getBalance, getData, hclosed, hcl, hget, encode_ne_nil, decode_encode]
      omega

/-- C7: a self-transfer with sufficient funds that runs without a database
error returns `True` and leaves the balance unchanged — the second balance
read observes the decremented cached value and writes it back plus the
amount. -/
theorem self_transfer_preserves_balance (H : Bytes → Bytes → Bytes)
    (hinj : ∀ k a b, H k a = H k b → a = b) (fuel : Nat) (s : TreeState)
    (X : Bytes) (amt b : Int)
    (hb : getBalance s X = .ok b) (hle : amt ≤ b) :
    match transferOp H fuel s X X amt with
    | .error _ => True
    | .ok (r, s') => r = true ∧ getBalance s' X = .ok b := by
  unfold transferOp
  simp only [hb]
  rw [if_neg (by omega)]
  rcases h1 : setBalance H fuel s X (b - amt) with e | s1
  · trivial
  · have hg1 := setBalance_get H hinj fuel s X (b - amt) s1 h1
    simp only [hg1]
    rcases h2 : setBalance H fuel s1 X (b - amt + amt) with e | s2
    · trivial
    · have hg2 := setBalance_get H hinj fuel s1 X (b - amt + amt) s2 h2
      refine ⟨rfl, ?_⟩
      rw [hg2]
      congr 1
      omega

/-- The concrete hash `cH` is collision-free on a fixed key. -/
theorem cH_inj : ∀ k a b, cH k a = cH k b → a = b := by
  intro k a b h
  unfold cH at h
  have h2 := List.append_cancel_left h
  simpa using h2

/-- A store holding balance 5 at address `[7]`, built by an actual put. -/
def c7state : TreeState :=
  match addOrUpdateData cH 20 [7] [5] emptyTree with
  | .ok s => s
  | .error _ => emptyTree

/-- Witness for `self_transfer_preserves_balance`: balance 5, self-transfer
of 3. -/
theorem self_transfer_witness :
    match transferOp cH 20 c7state [7] [7] 3 with
    | .error _ => True
    | .ok (r, s') => r = true ∧ getBalance s' [7] = .ok 5 :=
  self_transfer_preserves_balance cH cH_inj 20 c7state [7] 3 5 (by rfl) (by decide)

/-- C10: an insufficient-funds transfer returns `False` and performs no
write at all: the returned state is the input state, bit for bit. -/
theorem insufficient_transfer_noop (H : Bytes → Bytes → Bytes) (fuel : Nat)
    (s : TreeState) (sender receiver : Bytes) (amt b : Int)
    (hb : getBalance s sender = .ok b) (hlt : b < amt) :
    transferOp H fuel s sender receiver amt = .ok (false, s) := by
  unfold transferOp
  simp only [hb]
  rw [if_pos hlt]

/-- Witness for `insufficient_transfer_noop`: balance 5, transfer of 99. -/
theorem insufficient_transfer_witness :
    transferOp cH 10 { emptyTree with keyDataCache := [([7], [5])] } [7] [9] 99
      = .ok (false, { emptyTree with keyDataCache := [([7], [5])] }) :=
  insufficient_transfer_noop cH 10 _ [7] [9] 99 5 (by rfl) (by decide)

/-!
## The concrete scenarios S1-S4

Keys and values of the spec's scenario suite, as ASCII bytes.
-/

/-- b"hello" -/
def kHello : Bytes := [104, 101, 108, 108, 111]

/-- b"world" -/
def vWorld : Bytes := [119, 111, 114, 108, 100]

/-- b"foo" -/
def kFoo : Bytes := [102, 111, 111]

/-- b"bar" -/
def vBar : Bytes := [98, 97, 114]

/-- b"a" -/
def kA : Bytes := [97]

/-- b"b" -/
def vB : Bytes := [98]

/-- b"world2" -/
def vWorld2 : Bytes := [119, 111, 114, 108, 100, 50]

theorem kHello_eq : kHello = strBytes "hello" := by decide

theorem vWorld_eq : vWorld = strBytes "world" := by decide

theorem kFoo_eq : kFoo = strBytes "foo" := by decide

theorem vBar_eq : vBar = strBytes "bar" := by decide

theorem kA_eq : kA = strBytes "a" := by decide

theorem vB_eq : vB = strBytes "b" := by decide

theorem vWorld2_eq : vWorld2 = strBytes "world2" := by decide

instance exceptDecEq {ε α : Type} [DecidableEq ε] [DecidableEq α] :
    DecidableEq (Except ε α)
  | .error a, .error b =>
      if h : a = b then .isTrue (by rw [h])
      else .isFalse (fun hh => h (by injection hh))
  | .error _, .ok _ => .isFalse (fun hh => Except.noConfusion hh)
  | .ok _, .error _ => .isFalse (fun hh => Except.noConfusion hh)
  | .ok a, .ok b =>
      if h : a = b then .isTrue (by rw [h])
      else .isFalse (fun hh => h (by injection hh))

/-- Leaf hash `h1 = Keccak("hello" || "world")`. -/
def h1v (H : Bytes → Bytes → Bytes) : Bytes := H kHello vWorld

/-- Leaf hash `h2 = Keccak("foo" || "bar")`. -/
def h2v (H : Bytes → Bytes → Bytes) : Bytes := H kFoo vBar

/-- Leaf hash `h3 = Keccak("a" || "b")`. -/
def h3v (H : Bytes → Bytes → Bytes) : Bytes := H kA vB

/-- `Keccak(h1 || h2)`. -/
def p12v (H : Bytes → Bytes → Bytes) : Bytes := H (h1v H) (h2v H)

/-- `Keccak(h3 || h3)`: the single-child internal node above `h3`. -/
def qv (H : Bytes → Bytes → Bytes) : Bytes := H (h3v H) (h3v H)

/-- The S3 root `Keccak( Keccak(h1||h2) || Keccak(h3||h3) )`. -/
def rv (H : Bytes → Bytes → Bytes) : Bytes := H (p12v H) (qv H)

/-- Updated leaf hash `h1' = Keccak("hello" || "world2")`. -/
def h1v' (H : Bytes → Bytes → Bytes) : Bytes := H kHello vWorld2

/-- `Keccak(h1' || h2)`. -/
def p12v' (H : Bytes → Bytes → Bytes) : Bytes := H (h1v' H) (h2v H)

/-- The S4 root `Keccak( Keccak(h1'||h2) || Keccak(h3||h3) )`. -/
def rv' (H : Bytes → Bytes → Bytes) : Bytes := H (p12v' H) (qv H)

/-- Separation facts about the nine hash values of scenarios S1-S4: all are
non-empty and pairwise distinct, the working assumption for a
collision-resistant hash. -/
structure HashSep (H : Bytes → Bytes → Bytes) : Prop where
  ne1 : h1v H ≠ []
  ne2 : h2v H ≠ []
  ne3 : h3v H ≠ []
  nep : p12v H ≠ []
  neq : qv H ≠ []
  ner : rv H ≠ []
  ne1x : h1v' H ≠ []
  nepx : p12v' H ≠ []
  nerx : rv' H ≠ []
  d21 : h2v H ≠ h1v H
  dp1 : p12v H ≠ h1v H
  dp2 : p12v H ≠ h2v H
  d31 : h3v H ≠ h1v H
  d32 : h3v H ≠ h2v H
  d3p : h3v H ≠ p12v H
  dq1 : qv H ≠ h1v H
  dq2 : qv H ≠ h2v H
  dqp : qv H ≠ p12v H
  dq3 : qv H ≠ h3v H
  dr1 : rv H ≠ h1v H
  dr2 : rv H ≠ h2v H
  drp : rv H ≠ p12v H
  dr3 : rv H ≠ h3v H
  drq : rv H ≠ qv H
  d1x1 : h1v' H ≠ h1v H
  d1x2 : h1v' H ≠ h2v H
  d1xp : h1v' H ≠ p12v H
  d1x3 : h1v' H ≠ h3v H
  d1xq : h1v' H ≠ qv H
  d1xr : h1v' H ≠ rv H
  dpx2 : p12v' H ≠ h2v H
  dpx3 : p12v' H ≠ h3v H
  dpxq : p12v' H ≠ qv H
  dpxr : p12v' H ≠ rv H
  dpx1x : p12v' H ≠ h1v' H
  drx2 : rv' H ≠ h2v H
  drx3 : rv' H ≠ h3v H
  drxq : rv' H ≠ qv H
  drx1x : rv' H ≠ h1v' H
  drxpx : rv' H ≠ p12v' H

/-- The concrete pairing hash satisfies all the separation facts. -/
theorem cH_sep : HashSep cH := by
  constructor <;> decide

/-- The state after S1 (`put(b"hello", b"world")` on a fresh tree). -/
def S1 (H : Bytes → Bytes → Bytes) : TreeState :=
  { nodesCache := [(h1v H, { hash := h1v H })],
    hangingNodes := [(0, h1v H)],
    keyDataCache := [(kHello, vWorld)],
    numLeaves := 1, depth := 0, rootHash := some (h1v H),
    hasUnsavedChanges := true }

/-- The state after S2 (then `put(b"foo", b"bar")`). -/
def S2 (H : Bytes → Bytes → Bytes) : TreeState :=
  { nodesCache := [
      (h1v H, { hash := h1v H, parent := some (p12v H) }),
      (h2v H, { hash := h2v H, parent := some (p12v H) }),
      (p12v H, { hash := p12v H, left := some (h1v H), right := some (h2v H) })],
    hangingNodes := [(1, p12v H)],
    keyDataCache := [(kHello, vWorld), (kFoo, vBar)],
    numLeaves := 2, depth := 1, rootHash := some (p12v H),
    hasUnsavedChanges := true }

/-- The state after S3 (then `put(b"a", b"b")`). -/
def S3 (H : Bytes → Bytes → Bytes) : TreeState :=
  { nodesCache := [
      (h1v H, { hash := h1v H, parent := some (p12v H) }),
      (h2v H, { hash := h2v H, parent := some (p12v H) }),
      (p12v H, { hash := p12v H, left := some (h1v H), right := some (h2v H),
                 parent := some (rv H) }),
      (h3v H, { hash := h3v H, parent := some (qv H) }),
      (qv H, { hash := qv H, left := some (h3v H), parent := some (rv H) }),
      (rv H, { hash := rv H, left := some (p12v H), right := some (qv H) })],
    hangingNodes := [(0, h3v H), (2, rv H)],
    keyDataCache := [(kHello, vWorld), (kFoo, vBar), (kA, vB)],
    numLeaves := 3, depth := 2, rootHash := some (rv H),
    hasUnsavedChanges := true }

/-- The state after S4 (then `put(b"hello", b"world2")`). -/
def S4 (H : Bytes → Bytes → Bytes) : TreeState :=
  { nodesCache := [
      (h2v H, { hash := h2v H, parent := some (p12v' H) }),
      (h3v H, { hash := h3v H, parent := some (qv H) }),
      (qv H, { hash := qv H, left := some (h3v H), parent := some (rv' H) }),
      (h1v' H, { hash := h1v' H, parent := some (p12v' H),
                 rmFromDb := some (h1v H) }),
      (p12v' H, { hash := p12v' H, left := some (h1v' H), right := some (h2v H),
                  parent := some (rv' H), rmFromDb := some (p12v H) }),
      (rv' H, { hash := rv' H, left := some (p12v' H), right := some (qv H),
                rmFromDb := some (rv H) })],
    hangingNodes := [(0, h3v H), (2, rv' H)],
    keyDataCache := [(kHello, vWorld2), (kFoo, vBar), (kA, vB)],
    numLeaves := 3, depth := 2, rootHash := some (rv' H),
    hasUnsavedChanges := true }

example : addOrUpdateData cH 20 kHello vWorld emptyTree = .ok (S1 cH) := by
  decide

example : addOrUpdateData cH 20 kFoo vBar (S1 cH) = .ok (S2 cH) := by
  decide

example : addOrUpdateData cH 20 kA vB (S2 cH) = .ok (S3 cH) := by
  decide

example : addOrUpdateData cH 20 kHello vWorld2 (S3 cH) = .ok (S4 cH) := by
  decide

/-- S1 under any separated hash: the first put makes the leaf the root and
the level-0 hanging node. -/
theorem put1_eq (H : Bytes → Bytes → Bytes) (hs : HashSep H) (fuel : Nat) :
    addOrUpdateData H fuel kHello vWorld emptyTree = .ok (S1 H) := by
  obtain ⟨ne1, ne2, ne3, nep, neq, ner, ne1x, nepx, nerx, d21, dp1, dp2, d31,
    d32, d3p, dq1, dq2, dqp, dq3, dr1, dr2, drp, dr3, drq, d1x1, d1x2, d1xp,
    d1x3, d1xq, d1xr, dpx2, dpx3, dpxq, dpxr, dpx1x, drx2, drx3, drxq, drx1x,
    drxpx⟩ := hs
  simp only [h1v, h2v, h3v, p12v, qv, rv, h1v', p12v', rv', kHello, vWorld,
    kFoo, vBar, kA, vB, vWorld2] at *
  simp [addOrUpdateData, oldLeafHashOf, getDataRaw, tget, newLeaf, mkMNode,
    addLeaf, updateNodeInCache, alookup, aput, emptyTree, S1, ne1, h1v,
    kHello, vWorld]

/-- S2 under any separated hash: the second put pairs the two leaves under a new root at level 1. -/
theorem put2_eq (H : Bytes → Bytes → Bytes) (hs : HashSep H) (fuel : Nat) :
    addOrUpdateData H (fuel + 1) kFoo vBar (S1 H) = .ok (S2 H) := by
  obtain ⟨ne1, ne2, ne3, nep, neq, ner, ne1x, nepx, nerx, d21, dp1, dp2, d31, d32, d3p, dq1, dq2, dqp, dq3, dr1, dr2, drp, dr3, drq, d1x1, d1x2, d1xp, d1x3, d1xq, d1xr, dpx2, dpx3, dpxq, dpxr, dpx1x, drx2, drx3, drxq, drx1x, drxpx⟩ := hs
  simp only [h1v, h2v, h3v, p12v, qv, rv, h1v', p12v', rv', kHello, vWorld,
    kFoo, vBar, kA, vB, vWorld2] at *
  simp [addOrUpdateData, oldLeafHashOf, getDataRaw, tget, newLeaf, newInternal,
    mkMNode, calculateHashStatic, MNode.calcHash, MNode.addChild,
    MNode.updateLeafHash, addLeaf, addNode, updateNodeHash, updateLeafOp,
    getNodeByHash, updateNodeInCache, cacheAliased, repointChild,
    hangingReplace, alookup, aput, adel, emptyTree,
    S1, S2, S3, S4, h1v, h2v, h3v, p12v, qv, rv, h1v', p12v', rv',
    kHello, vWorld, kFoo, vBar, kA, vB, vWorld2,
    ne1, ne2, ne3, nep, neq, ner, ne1x, nepx, nerx, d21, dp1, dp2, d31, d32, d3p, dq1, dq2, dqp, dq3, dr1, dr2, drp, dr3, drq, d1x1, d1x2, d1xp, d1x3, d1xq, d1xr, dpx2, dpx3, dpxq, dpxr, dpx1x, drx2, drx3, drxq, drx1x, drxpx, d21.symm, dp1.symm, dp2.symm, d31.symm, d32.symm, d3p.symm, dq1.symm, dq2.symm, dqp.symm, dq3.symm, dr1.symm, dr2.symm, drp.symm, dr3.symm, drq.symm, d1x1.symm, d1x2.symm, d1xp.symm, d1x3.symm, d1xq.symm, d1xr.symm, dpx2.symm, dpx3.symm, dpxq.symm, dpxr.symm, dpx1x.symm, drx2.symm, drx3.symm, drxq.symm, drx1x.symm, drxpx.symm]

/-- S3 under any separated hash: the third put hangs the new leaf at level 0, builds its single-child parent, and pairs that parent with the level-1 node under a new level-2 root. -/
theorem put3_eq (H : Bytes → Bytes → Bytes) (hs : HashSep H) (fuel : Nat) :
    addOrUpdateData H (fuel + 1 + 1) kA vB (S2 H) = .ok (S3 H) := by
  obtain ⟨ne1, ne2, ne3, nep, neq, ner, ne1x, nepx, nerx, d21, dp1, dp2, d31, d32, d3p, dq1, dq2, dqp, dq3, dr1, dr2, drp, dr3, drq, d1x1, d1x2, d1xp, d1x3, d1xq, d1xr, dpx2, dpx3, dpxq, dpxr, dpx1x, drx2, drx3, drxq, drx1x, drxpx⟩ := hs
  simp only [h1v, h2v, h3v, p12v, qv, rv, h1v', p12v', rv', kHello, vWorld,
    kFoo, vBar, kA, vB, vWorld2] at *
  simp [addOrUpdateData, oldLeafHashOf, getDataRaw, tget, newLeaf, newInternal,
    mkMNode, calculateHashStatic, MNode.calcHash, MNode.addChild,
    MNode.updateLeafHash, addLeaf, addNode, updateNodeHash, updateLeafOp,
    getNodeByHash, updateNodeInCache, cacheAliased, repointChild,
    hangingReplace, alookup, aput, adel, emptyTree,
    S1, S2, S3, S4, h1v, h2v, h3v, p12v, qv, rv, h1v', p12v', rv',
    kHello, vWorld, kFoo, vBar, kA, vB, vWorld2,
    ne1, ne2, ne3, nep, neq, ner, ne1x, nepx, nerx, d21, dp1, dp2, d31, d32, d3p, dq1, dq2, dqp, dq3, dr1, dr2, drp, dr3, drq, d1x1, d1x2, d1xp, d1x3, d1xq, d1xr, dpx2, dpx3, dpxq, dpxr, dpx1x, drx2, drx3, drxq, drx1x, drxpx, d21.symm, dp1.symm, dp2.symm, d31.symm, d32.symm, d3p.symm, dq1.symm, dq2.symm, dqp.symm, dq3.symm, dr1.symm, dr2.symm, drp.symm, dr3.symm, drq.symm, d1x1.symm, d1x2.symm, d1xp.symm, d1x3.symm, d1xq.symm, d1xr.symm, dpx2.symm, dpx3.symm, dpxq.symm, dpxr.symm, dpx1x.symm, drx2.symm, drx3.symm, drxq.symm, drx1x.symm, drxpx.symm]

/-- S4 under any separated hash: updating the first key rewrites the leaf and propagates new hashes along its path to the root. -/
theorem put4_eq (H : Bytes → Bytes → Bytes) (hs : HashSep H) (fuel : Nat) :
    addOrUpdateData H (fuel + 1 + 1 + 1) kHello vWorld2 (S3 H) = .ok (S4 H) := by
  obtain ⟨ne1, ne2, ne3, nep, neq, ner, ne1x, nepx, nerx, d21, dp1, dp2, d31, d32, d3p, dq1, dq2, dqp, dq3, dr1, dr2, drp, dr3, drq, d1x1, d1x2, d1xp, d1x3, d1xq, d1xr, dpx2, dpx3, dpxq, dpxr, dpx1x, drx2, drx3, drxq, drx1x, drxpx⟩ := hs
  simp only [h1v, h2v, h3v, p12v, qv, rv, h1v', p12v', rv', kHello, vWorld,
    kFoo, vBar, kA, vB, vWorld2] at *
  simp [addOrUpdateData, oldLeafHashOf, getDataRaw, tget, newLeaf, newInternal,
    mkMNode, calculateHashStatic, MNode.calcHash, MNode.addChild,
    MNode.updateLeafHash, addLeaf, addNode, updateNodeHash, updateLeafOp,
    getNodeByHash, updateNodeInCache, cacheAliased, repointChild,
    hangingReplace, alookup, aput, adel, emptyTree,
    S1, S2, S3, S4, h1v, h2v, h3v, p12v, qv, rv, h1v', p12v', rv',
    kHello, vWorld, kFoo, vBar, kA, vB, vWorld2,
    ne1, ne2, ne3, nep, neq, ner, ne1x, nepx, nerx, d21, dp1, dp2, d31, d32, d3p, dq1, dq2, dqp, dq3, dr1, dr2, drp, dr3, drq, d1x1, d1x2, d1xp, d1x3, d1xq, d1xr, dpx2, dpx3, dpxq, dpxr, dpx1x, drx2, drx3, drxq, drx1x, drxpx, d21.symm, dp1.symm, dp2.symm, d31.symm, d32.symm, d3p.symm, dq1.symm, dq2.symm, dqp.symm, dq3.symm, dr1.symm, dr2.symm, drp.symm, dr3.symm, drq.symm, d1x1.symm, d1x2.symm, d1xp.symm, d1x3.symm, d1xq.symm, d1xr.symm, dpx2.symm, dpx3.symm, dpxq.symm, dpxr.symm, dpx1x.symm, drx2.symm, drx3.symm, drxq.symm, drx1x.symm, drxpx.symm]

/-- The S1-S3 put sequence on a fresh tree, all puts with the same fuel. -/
def s3chain (H : Bytes → Bytes → Bytes) (fuel : Nat) : Except String TreeState :=
  match addOrUpdateData H fuel kHello vWorld emptyTree with
  | .error e => .error e
  | .ok s =>
      match addOrUpdateData H fuel kFoo vBar s with
      | .error e => .error e
      | .ok s => addOrUpdateData H fuel kA vB s

/-- The S1-S4 put sequence. -/
def s4chain (H : Bytes → Bytes → Bytes) (fuel : Nat) : Except String TreeState :=
  match s3chain H fuel with
  | .error e => .error e
  | .ok s => addOrUpdateData H fuel kHello vWorld2 s

theorem s3chain_eq (H : Bytes → Bytes → Bytes) (hs : HashSep H) (fuel : Nat) :
    s3chain H (fuel + 1 + 1) = .ok (S3 H) := by
  unfold s3chain
  simp only [put1_eq H hs (fuel + 1 + 1), put2_eq H hs (fuel + 1),
    put3_eq H hs fuel]

theorem s4chain_eq (H : Bytes → Bytes → Bytes) (hs : HashSep H) (fuel : Nat) :
    s4chain H (fuel + 1 + 1 + 1) = .ok (S4 H) := by
  unfold s4chain
  simp only [s3chain_eq H hs (fuel + 1), put4_eq H hs fuel]

/-- C1 counterexample: after the three puts of S1-S3 (run with the concrete
hash), the hanging-node map holds NO entry at the pair level (level 1) —
contradicting the claim that "the hanging node at the pair level is an
internal node with single child h3". -/
theorem hanging_pair_level_cex :
    (s3chain cH 20).map (fun s => alookup s.hangingNodes 1) = .ok none := by
  decide

/-- C1 (amended): after the three puts, `num_leaves = 3`, `depth = 2` and
`root = Keccak( Keccak(h1||h2) || Keccak(h3||h3) )` as claimed, but the
hanging-node map holds the bare leaf `h3` at level 0 and the root at level
2, with no entry at the pair level; the internal node with single child
`h3`, hashed `Keccak(h3||h3)`, sits in the node cache as the parent of the
hanging leaf. -/
theorem three_leaf_tree (H : Bytes → Bytes → Bytes) (hs : HashSep H)
    (fuel : Nat) :
    match s3chain H (fuel + 1 + 1) with
    | .error _ => False
    | .ok s =>
        s.numLeaves = 3 ∧ s.depth = 2 ∧ s.rootHash = some (rv H) ∧
        alookup s.hangingNodes 0 = some (h3v H) ∧
        alookup s.hangingNodes 1 = none ∧
        alookup s.hangingNodes 2 = some (rv H) ∧
        alookup s.nodesCache (qv H)
          = some { hash := qv H, left := some (h3v H), right := none,
                   parent := some (rv H), rmFromDb := none } := by
  rw [s3chain_eq H hs fuel]
  obtain ⟨ne1, ne2, ne3, nep, neq, ner, ne1x, nepx, nerx, d21, dp1, dp2, d31,
    d32, d3p, dq1, dq2, dqp, dq3, dr1, dr2, drp, dr3, drq, d1x1, d1x2, d1xp,
    d1x3, d1xq, d1xr, dpx2, dpx3, dpxq, dpxr, dpx1x, drx2, drx3, drxq, drx1x,
    drxpx⟩ := hs
  simp only [h1v, h2v, h3v, p12v, qv, rv, h1v', p12v', rv', kHello, vWorld,
    kFoo, vBar, kA, vB, vWorld2] at *
  simp [S3, alookup, h1v, h2v, h3v, p12v, qv, rv, kHello, vWorld, kFoo, vBar,
    kA, vB, dq1.symm, dq2.symm, dqp.symm, dq3, dq3.symm]

/-- Witness for `three_leaf_tree` at the concrete hash. -/
theorem three_leaf_tree_witness :
    match s3chain cH (18 + 1 + 1) with
    | .error _ => False
    | .ok s =>
        s.numLeaves = 3 ∧ s.depth = 2 ∧ s.rootHash = some (rv cH) ∧
        alookup s.hangingNodes 0 = some (h3v cH) ∧
        alookup s.hangingNodes 1 = none ∧
        alookup s.hangingNodes 2 = some (rv cH) ∧
        alookup s.nodesCache (qv cH)
          = some { hash := qv cH, left := some (h3v cH), right := none,
                   parent := some (rv cH), rmFromDb := none } :=
  three_leaf_tree cH cH_sep 18

/-- C2: updating `"hello"` to `"world2"` in the S3 state recomputes the
hashes along the leaf's path, yielding
`root = Keccak( Keccak(h1'||h2) || Keccak(h3||h3) )` with `num_leaves` and
`depth` unchanged. -/
theorem update_recomputes_root (H : Bytes → Bytes → Bytes) (hs : HashSep H)
    (fuel : Nat) :
    match s4chain H (fuel + 1 + 1 + 1) with
    | .error _ => False
    | .ok s => s.rootHash = some (rv' H) ∧ s.numLeaves = 3 ∧ s.depth = 2 := by
  rw [s4chain_eq H hs fuel]
  exact ⟨rfl, rfl, rfl⟩

/-- Witness for `update_recomputes_root` at the concrete hash. -/
theorem update_recomputes_root_witness :
    match s4chain cH (17 + 1 + 1 + 1) with
    | .error _ => False
    | .ok s => s.rootHash = some (rv' cH) ∧ s.numLeaves = 3 ∧ s.depth = 2 :=
  update_recomputes_root cH cH_sep 17

/-!
## C5: revert after flushed history (stale hanging metadata)

`flush_to_disk` writes a `hangingNode<level>` metadata entry for every
level currently in the hanging map but never deletes entries of levels
that ceased to be hanging since an earlier flush.  `_load_metadata` then
resurrects them on `revert`.
-/

/-- `put("hello","world"); flush; put("foo","bar"); flush` — the state just
before the extra put of the revert scenario.  The first flush left
`hangingNode0 = h1` on disk; the second flush does not remove it. -/
def c5flushed2 : Except String TreeState :=
  match addOrUpdateData cH 20 kHello vWorld emptyTree with
  | .error e => .error e
  | .ok s =>
      match flushToDisk s with
      | .error e => .error e
      | .ok s =>
          match addOrUpdateData cH 20 kFoo vBar s with
          | .error e => .error e
          | .ok s => flushToDisk s

/-- ... then `put("a","b"); revert()`. -/
def c5reverted : Except String TreeState :=
  match c5flushed2 with
  | .error e => .error e
  | .ok s =>
      match addOrUpdateData cH 20 kA vB s with
      | .error e => .error e
      | .ok s => revertUnsavedChanges s

/-- C5 fails on the code: before the extra put the hanging map is
`{1 ↦ Keccak(h1||h2)}`, but after `put; revert` it is
`{0 ↦ h1, 1 ↦ Keccak(h1||h2)}` — `revert` resurrected the stale
`hangingNode0` metadata entry of the first flush, so the store is not
bit-identical to the pre-put state (root, leaf count and depth do agree). -/
theorem revert_resurrects_stale_hanging :
    c5flushed2.map (fun s => s.hangingNodes) = .ok [(1, p12v cH)] ∧
    c5reverted.map (fun s => s.hangingNodes)
      = .ok [(0, h1v cH), (1, p12v cH)] ∧
    c5reverted.map (fun s => s.hangingNodes)
      ≠ c5flushed2.map (fun s => s.hangingNodes) ∧
    c5reverted.map (fun s => (s.rootHash, s.numLeaves, s.depth))
      = c5flushed2.map (fun s => (s.rootHash, s.numLeaves, s.depth)) := by
  decide
